import Mathlib

/-!
Shallow embedding of the incremental syntax-highlighting core of
`element-plus-x/x-markdown` (the `useHighlight` hook and the token-style
resolution of the code-block component), together with proofs of the
specification's claims about it.

Text is modelled as `List Char` (JS strings as character sequences); fallible
tokenizer calls are modelled with `Except`; the reactive state of the hook is
an explicit record threaded through the operations.
-/

namespace XMarkdown

/-- JS strings, modelled as character lists. -/
abbrev Str := List Char

/-- A shiki `ThemedToken`: a content run plus its styling payload.  The
splitter only reads `content` and copies every other field, so the remaining
fields are bundled opaquely in `style`. -/
structure ThemedToken where
  content : Str
  style : Str
  deriving DecidableEq, Repr

/-- Number of newline characters in a string. -/
def countNL (s : Str) : Nat := s.count '\n'

/-- JS `s.split('\n')`: split on every single newline character; the empty
string yields one empty segment. -/
def splitNL : Str → List Str
  | [] => [[]]
  | c :: rest =>
    if c = '\n' then [] :: splitNL rest
    else
      match splitNL rest with
      | [] => [[c]]
      | h :: t => (c :: h) :: t

/-- Join segments back with single newlines (inverse of `splitNL`; also the
"join consecutive lines with one newline" reading used by property P4). -/
def unsplit : List Str → Str
  | [] => []
  | [x] => x
  | x :: xs => x ++ '\n' :: unsplit xs

/-- `if (segment) currentLine.push({...token, content: segment})`: a non-empty
segment is appended to the current line carrying the original token's style;
an empty segment is dropped. -/
def pushSeg (token : ThemedToken) (seg : Str) (cur : List ThemedToken) : List ThemedToken :=
  if seg.isEmpty then cur else cur ++ [{ token with content := seg }]

/-- State of the line-splitting fold: finished lines in reverse order, and the
current (still open) line.  The source keeps `lines` with `currentLine` as its
mutable last element; `(revDone, cur)` renders the same state functionally as
`revDone.reverse ++ [cur]`. -/
abbrev SplitState := List (List ThemedToken) × List ThemedToken

/-- The `segments.forEach` body of case 3 of `tokensToLineTokens`: push each
non-empty segment, and after every segment except the last terminate the
current line (`startNewLine`). -/
def foldSegs (token : ThemedToken) : List Str → SplitState → SplitState
  | [], st => st
  | [seg], (revDone, cur) => (revDone, pushSeg token seg cur)
  | seg :: rest, (revDone, cur) => foldSegs token rest (pushSeg token seg cur :: revDone, [])

/-- The per-token body of `tokens.forEach` in `tokensToLineTokens`:
a lone-newline token terminates the line, a newline-free token is appended
unchanged, and a token with embedded newlines is split on newline. -/
def stepToken (st : SplitState) (token : ThemedToken) : SplitState :=
  if token.content = ['\n'] then (st.2 :: st.1, [])
  else if token.content.contains '\n' = false then (st.1, st.2 ++ [token])
  else foldSegs token (splitNL token.content) st

/-- `tokensToLineTokens` (useHighlight.ts:93-151): regroup a flat token list
into lines.  An empty input yields one empty line; the final defensive check
(`lines.length === 0 ? [[]] : lines`) is kept verbatim. -/
def tokensToLineTokens (tokens : List ThemedToken) : List (List ThemedToken) :=
  if tokens.isEmpty then [[]]
  else
    let st := tokens.foldl stepToken ([], [])
    let lines := st.1.reverse ++ [st.2]
    if lines.isEmpty then [[]] else lines

/-- Concatenated text of one line. -/
def lineText (l : List ThemedToken) : Str := (l.map ThemedToken.content).flatten

/-- Concatenated contents of a flat token list. -/
def concatContents (ts : List ThemedToken) : Str := (ts.map ThemedToken.content).flatten

/-- Text already committed by the reversed finished-lines accumulator: each
finished line contributes its text followed by one newline. -/
def revText : List (List ThemedToken) → Str
  | [] => []
  | l :: rs => revText rs ++ lineText l ++ ['\n']

/-- Full text represented by a split state. -/
def stText (st : SplitState) : Str := revText st.1 ++ lineText st.2

/-- Append a token to the last line of a line list (the effect of pushing an
empty-content token, which the splitter appends to the current line). -/
def appendToLast (t : ThemedToken) : List (List ThemedToken) → List (List ThemedToken)
  | [] => [[t]]
  | [l] => [l ++ [t]]
  | l :: ls => l :: appendToLast t ls

/-! ### Color replacement (SyntaxCodeBlock component) -/

/-- A `colorReplacements` record: literal color value to replacement value.
JS object keys are unique; an association list with first-match lookup. -/
abbrev ColorMap := List (Str × Str)

/-- JS `color.toLowerCase()` (per-character lowering suffices for color
literals). -/
def toLowerStr (s : Str) : Str := s.map Char.toLower

/-- JS `replacements[key]`: association-list lookup. -/
def lookupColor : ColorMap → Str → Option Str
  | [], _ => none
  | (k, v) :: rest, key => if k = key then some v else lookupColor rest key

/-- `applyColorReplacement` (SyntaxCodeBlock): no map is the identity,
otherwise `replacements[color.toLowerCase()] || color` — a missing key or a
falsy (empty) replacement fall back to the original color. -/
def applyColorReplacement (color : Str) (replacements : Option ColorMap) : Str :=
  match replacements with
  | none => color
  | some m =>
    match lookupColor m (toLowerStr color) with
    | some r => if r.isEmpty then color else r
    | none => color

/-- The style attributes `getTokenStyle` operates on, after the upstream
shiki resolution (`htmlStyle || getTokenStyleObject`) and kebab-to-camel
normalization have produced a plain style record.  `none` is an absent field,
`some []` an empty-string field (both falsy in JS). -/
structure StyleAttributes where
  color : Option Str
  backgroundColor : Option Str
  fontStyle : Option Str
  fontWeight : Option Str
  deriving DecidableEq, Repr

/-- `getTokenStyle` (SyntaxCodeBlock): without a replacement map the base
style is returned as is; with a map, a copy is made and the truthy `color`
and `backgroundColor` fields are run through `applyColorReplacement`. -/
def getTokenStyle (baseStyle : StyleAttributes) (colorReplacements : Option ColorMap) :
    StyleAttributes :=
  match colorReplacements with
  | none => baseStyle
  | some m =>
    let s1 :=
      match baseStyle.color with
      | some c =>
        if c.isEmpty then baseStyle
        else { baseStyle with color := some (applyColorReplacement c (some m)) }
      | none => baseStyle
    match s1.backgroundColor with
    | some c =>
      if c.isEmpty then s1
      else { s1 with backgroundColor := some (applyColorReplacement c (some m)) }
    | none => s1

/-! ### Streaming state and the update/init operations (useHighlight) -/

/-- Error values (JS `Error` objects, identified by their message). -/
abbrev Err := Str

/-- The observable state of a `ShikiStreamTokenizer`: its stable and unstable
token buffers. -/
structure Tokenizer where
  tokensStable : List ThemedToken
  tokensUnstable : List ThemedToken
  deriving DecidableEq, Repr

/-- `tokenizer.clear()`: both token buffers are emptied. -/
def clearTokenizer (_tk : Tokenizer) : Tokenizer := ⟨[], []⟩

/-- The `<pre>` style produced by `createPreStyle`. -/
structure PreStyle where
  backgroundColor : Option Str
  color : Option Str
  deriving DecidableEq, Repr

/-- `createPreStyle` (useHighlight.ts:163-171): absent when both colors are
falsy. -/
def createPreStyle (bg fg : Option Str) : Option PreStyle :=
  if (bg.getD []).isEmpty && (fg.getD []).isEmpty then none
  else some ⟨bg, fg⟩

/-- The `StreamingHighlightResult` record published through `streaming`. -/
structure StreamingHighlightResult where
  colorReplacements : Option ColorMap
  lines : List (List ThemedToken)
  preStyle : Option PreStyle
  deriving DecidableEq, Repr

/-- The state owned by one `useHighlight` call: the reactive refs
(`streaming`, `error`, `isLoading`) and the plain locals
(`tokenizer`, `previousText`). -/
structure HighlightState where
  tokenizer : Option Tokenizer
  previousText : Str
  streaming : Option StreamingHighlightResult
  error : Option Err
  isLoading : Bool
  deriving DecidableEq, Repr

/-- The initial state of a `useHighlight` call: no tokenizer, empty
`previousText`, `streaming` unset, no error, not loading. -/
def initialState : HighlightState :=
  { tokenizer := none, previousText := [], streaming := none,
    error := none, isLoading := false }

/-- The exposed `lines` computed value: `streaming.value?.lines || [[]]`
(an empty `streaming` yields the single-empty-line fallback). -/
def linesOf (st : HighlightState) : List (List ThemedToken) :=
  match st.streaming with
  | some s => s.lines
  | none => [[]]

/-- The `canAppend` test of `updateTokens`:
`!forceReset && nextText.startsWith(previousText)`. -/
def canAppendOf (previousText nextText : Str) (forceReset : Bool) : Bool :=
  !forceReset && previousText.isPrefixOf nextText

/-- The chunk `updateTokens` feeds the tokenizer: the fresh suffix
`nextText.slice(previousText.length)` when appending, the whole `nextText`
otherwise. -/
def chunkOf (previousText nextText : Str) (forceReset : Bool) : Str :=
  if canAppendOf previousText nextText forceReset then
    nextText.drop previousText.length
  else nextText

/-- The tail of `updateTokens` once a non-empty chunk is to be enqueued:
`await tokenizer.enqueue(chunk)` then publish the merged stable+unstable
tokens, or on failure record the error and leave `streaming` untouched.
`previousText` was already set to `nextText` before the `try`. -/
def enqueueStep (enqueue : Tokenizer → Str → Except Err Tokenizer)
    (cr : Option ColorMap) (st : HighlightState) (tok : Tokenizer)
    (chunk nextText : Str) : HighlightState :=
  match enqueue tok chunk with
  | Except.ok tok2 =>
    let merged := tok2.tokensStable ++ tok2.tokensUnstable
    { st with
      tokenizer := some tok2
      previousText := nextText
      streaming := some { colorReplacements := cr
                          lines := tokensToLineTokens merged
                          preStyle := st.streaming.bind StreamingHighlightResult.preStyle } }
  | Except.error e =>
    { st with tokenizer := some tok, previousText := nextText, error := some e }

/-- `updateTokens` (useHighlight.ts:246-308).  A missing tokenizer is an
early return; `forceReset` clears the tokenizer and `previousText`; the
append test picks the chunk; a non-append non-forced update clears the
tokenizer; `previousText` becomes `nextText`; an empty chunk republishes the
merged buffers without an `enqueue` call, otherwise the chunk is enqueued.
The tokenizer's asynchronous calls are supplied as the `enqueue` argument;
`cr` is `options.colorReplacements`. -/
def updateTokens (enqueue : Tokenizer → Str → Except Err Tokenizer)
    (cr : Option ColorMap) (st : HighlightState) (nextText : Str)
    (forceReset : Bool) : HighlightState :=
  match st.tokenizer with
  | none => st
  | some tok0 =>
    let tok1 := if forceReset then clearTokenizer tok0 else tok0
    let prev := if forceReset then [] else st.previousText
    let canAppend := canAppendOf prev nextText forceReset
    let chunk := chunkOf prev nextText forceReset
    let tok2 := if !canAppend && !forceReset then clearTokenizer tok1 else tok1
    if chunk.isEmpty then
      let merged := tok2.tokensStable ++ tok2.tokensUnstable
      { st with
        tokenizer := some tok2
        previousText := nextText
        streaming := some { colorReplacements := cr
                            lines := if merged.isEmpty then [[]]
                                     else tokensToLineTokens merged
                            preStyle := st.streaming.bind StreamingHighlightResult.preStyle } }
    else enqueueStep enqueue cr st tok2 chunk nextText

/-- Outcome of the asynchronous engine acquisition in `initHighlighter`:
either some step of `loadShiki` / `getSingletonHighlighter` /
`new ShikiStreamTokenizer` threw, or a fresh tokenizer was produced together
with the theme's `bg`/`fg`. -/
inductive EngineOutcome where
  | failed (e : Err)
  | ok (newTok : Tokenizer) (bg fg : Option Str)
  deriving Repr

/-- `initHighlighter` (useHighlight.ts:323-391).  The first component is the
resulting hook state; the second is the post-call content of the tokenizer
object that was held *before* the call (`none` when none was held) — in the
disabled branch `tokenizer?.clear()` empties it, in the enabled branch it is
merely dropped and keeps its buffers. -/
def initHighlighter (streamingOpt : Bool) (engine : EngineOutcome)
    (enqueue : Tokenizer → Str → Except Err Tokenizer) (cr : Option ColorMap)
    (textVal : Str) (st : HighlightState) : HighlightState × Option Tokenizer :=
  if !streamingOpt then
    ({ st with tokenizer := none, previousText := [], streaming := none },
     st.tokenizer.map clearTokenizer)
  else
    let st1 := { st with isLoading := true, error := none }
    match engine with
    | EngineOutcome.failed e =>
      ({ st1 with error := some e, isLoading := false }, st.tokenizer)
    | EngineOutcome.ok newTok bg fg =>
      let preStyleValue := createPreStyle bg fg
      let st2 := { st1 with tokenizer := some newTok, previousText := [] }
      let st3 :=
        if textVal.isEmpty then
          { st2 with streaming := some { colorReplacements := cr
                                         lines := [[]]
                                         preStyle := preStyleValue } }
        else
          let st4 := updateTokens enqueue cr st2 textVal true
          match st4.streaming with
          | some s => { st4 with streaming := some { s with preStyle := preStyleValue } }
          | none => st4
      ({ st3 with isLoading := false }, st.tokenizer)

/-! ### Lemmas about `splitNL` and `unsplit` -/

theorem splitNL_ne_nil (s : Str) : splitNL s ≠ [] := by
  cases s with
  | nil => simp [splitNL]
  | cons c rest =>
    simp only [splitNL]
    split
    · simp
    · split <;> simp

theorem countNL_cons (c : Char) (s : Str) :
    countNL (c :: s) = countNL s + (if c = '\n' then 1 else 0) := by
  simp [countNL, List.count_cons]

theorem countNL_append (a b : Str) : countNL (a ++ b) = countNL a + countNL b := by
  simp [countNL, List.count_append, Nat.add_comm]

theorem splitNL_length (s : Str) : (splitNL s).length = countNL s + 1 := by
  induction s with
  | nil => simp [splitNL, countNL]
  | cons c rest ih =>
    rw [countNL_cons]
    by_cases h : c = '\n'
    · subst h
      simp [splitNL, ih]
    · simp only [splitNL, if_neg h]
      cases hrest : splitNL rest with
      | nil => exact absurd hrest (splitNL_ne_nil rest)
      | cons h2 t2 =>
        rw [hrest] at ih
        simp only [List.length_cons] at ih ⊢
        simp [if_neg h]
        omega

theorem unsplit_splitNL (s : Str) : unsplit (splitNL s) = s := by
  induction s with
  | nil => rfl
  | cons c rest ih =>
    by_cases h : c = '\n'
    · simp only [splitNL, if_pos h, h]
      cases hrest : splitNL rest with
      | nil => exact absurd hrest (splitNL_ne_nil rest)
      | cons h2 t2 =>
        rw [hrest] at ih
        simp [unsplit, ih]
    · simp only [splitNL, if_neg h]
      cases hrest : splitNL rest with
      | nil => exact absurd hrest (splitNL_ne_nil rest)
      | cons h2 t2 =>
        rw [hrest] at ih
        cases t2 with
        | nil =>
          simp only [unsplit] at ih ⊢
          rw [ih]
        | cons x xs =>
          simp only [unsplit] at ih ⊢
          simp [ih]

theorem countNL_eq_zero {s : Str} (h : s.contains '\n' = false) : countNL s = 0 := by
  induction s with
  | nil => rfl
  | cons c rest ih =>
    simp only [List.contains_cons, Bool.or_eq_false_iff, beq_eq_false_iff_ne] at h
    rw [countNL_cons, ih h.2, if_neg (Ne.symm h.1)]

theorem unsplit_snoc (xs : List Str) (x : Str) :
    unsplit (xs ++ [x]) = if xs.isEmpty then x else unsplit xs ++ '\n' :: x := by
  induction xs with
  | nil => simp [unsplit]
  | cons a as ih =>
    cases as with
    | nil => simp [unsplit]
    | cons b bs =>
      simp only [List.cons_append, unsplit] at ih ⊢
      simp at ih
      simp [ih]

/-! ### Lemmas about the line-splitting fold -/

theorem lineText_append (a b : List ThemedToken) :
    lineText (a ++ b) = lineText a ++ lineText b := by
  simp [lineText]

theorem lineText_pushSeg (t : ThemedToken) (seg : Str) (cur : List ThemedToken) :
    lineText (pushSeg t seg cur) = lineText cur ++ seg := by
  unfold pushSeg
  split
  · next h =>
    rw [List.isEmpty_iff] at h
    simp [h]
  · simp [lineText_append, lineText]

theorem foldSegs_text (t : ThemedToken) (segs : List Str) :
    ∀ rd cur, stText (foldSegs t segs (rd, cur)) =
      revText rd ++ (lineText cur ++ unsplit segs) := by
  induction segs with
  | nil => intro rd cur; simp [foldSegs, stText, unsplit]
  | cons seg rest ih =>
    intro rd cur
    cases rest with
    | nil => simp [foldSegs, stText, unsplit, lineText_pushSeg]
    | cons s2 t2 =>
      rw [show foldSegs t (seg :: s2 :: t2) (rd, cur)
            = foldSegs t (s2 :: t2) (pushSeg t seg cur :: rd, []) from rfl]
      rw [ih]
      simp only [revText, lineText_pushSeg]
      simp [unsplit, lineText, List.append_assoc]

theorem foldSegs_len (t : ThemedToken) (segs : List Str) :
    ∀ rd cur, (foldSegs t segs (rd, cur)).1.length = rd.length + (segs.length - 1) := by
  induction segs with
  | nil => intro rd cur; simp [foldSegs]
  | cons seg rest ih =>
    intro rd cur
    cases rest with
    | nil => simp [foldSegs]
    | cons s2 t2 =>
      rw [show foldSegs t (seg :: s2 :: t2) (rd, cur)
            = foldSegs t (s2 :: t2) (pushSeg t seg cur :: rd, []) from rfl]
      rw [ih]
      simp
      omega

theorem stepToken_text (st : SplitState) (t : ThemedToken) :
    stText (stepToken st t) = stText st ++ t.content := by
  obtain ⟨rd, cur⟩ := st
  unfold stepToken
  by_cases h1 : t.content = ['\n']
  · simp [h1, stText, revText, lineText]
  · rw [if_neg h1]
    by_cases h2 : t.content.contains '\n' = false
    · rw [if_pos h2]
      simp [stText, lineText_append, lineText]
    · rw [if_neg h2, foldSegs_text, unsplit_splitNL]
      simp [stText]

theorem stepToken_len (st : SplitState) (t : ThemedToken) :
    (stepToken st t).1.length = st.1.length + countNL t.content := by
  obtain ⟨rd, cur⟩ := st
  unfold stepToken
  by_cases h1 : t.content = ['\n']
  · simp [h1, countNL]
  · rw [if_neg h1]
    by_cases h2 : t.content.contains '\n' = false
    · rw [if_pos h2]
      simp [countNL_eq_zero h2]
    · rw [if_neg h2, foldSegs_len, splitNL_length]
      simp

theorem concatContents_cons (t : ThemedToken) (ts : List ThemedToken) :
    concatContents (t :: ts) = t.content ++ concatContents ts := by
  simp [concatContents]

theorem foldl_stepToken_text (ts : List ThemedToken) :
    ∀ st : SplitState, stText (ts.foldl stepToken st) = stText st ++ concatContents ts := by
  induction ts with
  | nil => intro st; simp [concatContents]
  | cons t rest ih =>
    intro st
    rw [List.foldl_cons, ih, stepToken_text, concatContents_cons]
    simp

theorem foldl_stepToken_len (ts : List ThemedToken) :
    ∀ st : SplitState,
      (ts.foldl stepToken st).1.length = st.1.length + countNL (concatContents ts) := by
  induction ts with
  | nil => intro st; simp [concatContents, countNL]
  | cons t rest ih =>
    intro st
    rw [List.foldl_cons, ih, stepToken_len, concatContents_cons, countNL_append]
    omega

theorem unsplit_rev (rd : List (List ThemedToken)) :
    ∀ cur, unsplit ((rd.reverse ++ [cur]).map lineText) = revText rd ++ lineText cur := by
  induction rd with
  | nil => intro cur; simp [unsplit, revText]
  | cons l rs ih =>
    intro cur
    have step : (((l :: rs).reverse ++ [cur]).map lineText)
        = ((rs.reverse ++ [l]).map lineText) ++ [lineText cur] := by
      simp [List.append_assoc]
    rw [step, unsplit_snoc]
    have hne : ((rs.reverse ++ [l]).map lineText).isEmpty = false := by simp
    rw [hne]
    simp only [Bool.false_eq_true, if_false]
    rw [ih l]
    simp [revText, List.append_assoc]

/-- All tokens stored in a split state. -/
def stTokens (st : SplitState) : List ThemedToken := st.1.flatten ++ st.2

theorem mem_pushSeg {t2 : ThemedToken} (t : ThemedToken) (seg : Str) (cur : List ThemedToken)
    (h : t2 ∈ pushSeg t seg cur) : t2 ∈ cur ∨ t2.style = t.style := by
  unfold pushSeg at h
  split at h
  · exact Or.inl h
  · rcases List.mem_append.1 h with h3 | h3
    · exact Or.inl h3
    · rw [List.mem_singleton.1 h3]
      exact Or.inr rfl

theorem mem_foldSegs {t2 : ThemedToken} (t : ThemedToken) (segs : List Str) :
    ∀ rd cur, t2 ∈ stTokens (foldSegs t segs (rd, cur)) →
      t2 ∈ stTokens (rd, cur) ∨ t2.style = t.style := by
  induction segs with
  | nil => intro rd cur h; exact Or.inl h
  | cons seg rest ih =>
    intro rd cur h
    cases rest with
    | nil =>
      simp only [foldSegs, stTokens] at h
      rcases List.mem_append.1 h with h3 | h3
      · exact Or.inl (List.mem_append_left _ h3)
      · rcases mem_pushSeg t seg cur h3 with h4 | h4
        · exact Or.inl (List.mem_append_right _ h4)
        · exact Or.inr h4
    | cons s2 t2s =>
      rw [show foldSegs t (seg :: s2 :: t2s) (rd, cur)
            = foldSegs t (s2 :: t2s) (pushSeg t seg cur :: rd, []) from rfl] at h
      rcases ih _ _ h with h3 | h3
      · simp only [stTokens, List.flatten_cons, List.append_nil] at h3
        rcases List.mem_append.1 h3 with h4 | h4
        · rcases mem_pushSeg t seg cur h4 with h5 | h5
          · exact Or.inl (List.mem_append_right _ h5)
          · exact Or.inr h5
        · exact Or.inl (List.mem_append_left _ h4)
      · exact Or.inr h3

theorem mem_stepToken {t2 : ThemedToken} (st : SplitState) (t : ThemedToken)
    (h : t2 ∈ stTokens (stepToken st t)) : t2 ∈ stTokens st ∨ t2.style = t.style := by
  obtain ⟨rd, cur⟩ := st
  unfold stepToken at h
  split at h
  · left
    simp only [stTokens, List.flatten_cons, List.append_nil] at h ⊢
    rcases List.mem_append.1 h with h3 | h3
    · exact List.mem_append_right _ h3
    · exact List.mem_append_left _ h3
  · split at h
    · simp only [stTokens] at h ⊢
      rcases List.mem_append.1 h with h3 | h3
      · exact Or.inl (List.mem_append_left _ h3)
      · rcases List.mem_append.1 h3 with h4 | h4
        · exact Or.inl (List.mem_append_right _ h4)
        · rw [List.mem_singleton.1 h4]
          exact Or.inr rfl
    · exact mem_foldSegs t _ rd cur h

theorem mem_foldl_stepToken {t2 : ThemedToken} (ts : List ThemedToken) :
    ∀ st, t2 ∈ stTokens (ts.foldl stepToken st) →
      t2 ∈ stTokens st ∨ ∃ t ∈ ts, t2.style = t.style := by
  induction ts with
  | nil => intro st h; exact Or.inl h
  | cons t rest ih =>
    intro st h
    rw [List.foldl_cons] at h
    rcases ih _ h with h3 | ⟨t3, ht3, hs⟩
    · rcases mem_stepToken st t h3 with h4 | h4
      · exact Or.inl h4
      · exact Or.inr ⟨t, List.mem_cons_self t rest, h4⟩
    · exact Or.inr ⟨t3, List.mem_cons_of_mem _ ht3, hs⟩

/-! ### Characterizations of `tokensToLineTokens` -/

theorem tokensToLineTokens_eq (ts : List ThemedToken) (h : ts.isEmpty = false) :
    tokensToLineTokens ts
      = (ts.foldl stepToken ([], [])).1.reverse ++ [(ts.foldl stepToken ([], [])).2] := by
  unfold tokensToLineTokens
  rw [h]
  simp

theorem tokensToLineTokens_len (ts : List ThemedToken) :
    (tokensToLineTokens ts).length = countNL (concatContents ts) + 1 := by
  cases hts : ts.isEmpty with
  | true =>
    have h0 : ts = [] := by simpa using hts
    subst h0
    simp [tokensToLineTokens, concatContents, countNL]
  | false =>
    rw [tokensToLineTokens_eq ts hts]
    have hlen := foldl_stepToken_len ts ([], [])
    simp only [List.length_nil, Nat.zero_add] at hlen
    simp [hlen]

theorem tokensToLineTokens_text (ts : List ThemedToken) :
    unsplit ((tokensToLineTokens ts).map lineText) = concatContents ts := by
  cases hts : ts.isEmpty with
  | true =>
    have h0 : ts = [] := by simpa using hts
    subst h0
    simp [tokensToLineTokens, unsplit, lineText, concatContents]
  | false =>
    rw [tokensToLineTokens_eq ts hts, unsplit_rev]
    have htext := foldl_stepToken_text ts ([], [])
    simpa [stText, revText, lineText] using htext

theorem tokensToLineTokens_styles (ts : List ThemedToken) {l : List ThemedToken}
    {t2 : ThemedToken} (hl : l ∈ tokensToLineTokens ts) (ht : t2 ∈ l) :
    ∃ t ∈ ts, t2.style = t.style := by
  cases hts : ts.isEmpty with
  | true =>
    have h0 : ts = [] := by simpa using hts
    subst h0
    simp [tokensToLineTokens] at hl
    subst hl
    exact absurd ht (List.not_mem_nil t2)
  | false =>
    rw [tokensToLineTokens_eq ts hts] at hl
    have hmem : t2 ∈ stTokens (ts.foldl stepToken ([], [])) := by
      rcases List.mem_append.1 hl with h3 | h3
      · have hmemrd : l ∈ (ts.foldl stepToken ([], [])).1 := List.mem_reverse.1 h3
        exact List.mem_append_left _ (List.mem_flatten.2 ⟨l, hmemrd, ht⟩)
      · rw [List.mem_singleton.1 h3] at ht
        exact List.mem_append_right _ ht
    rcases mem_foldl_stepToken ts ([], []) hmem with h4 | h4
    · simp [stTokens] at h4
    · exact h4

theorem appendToLast_snoc (t : ThemedToken) (xs : List (List ThemedToken))
    (x : List ThemedToken) : appendToLast t (xs ++ [x]) = xs ++ [x ++ [t]] := by
  induction xs with
  | nil => simp [appendToLast]
  | cons a as ih =>
    cases as with
    | nil => simp [appendToLast]
    | cons b bs =>
      have hstep : appendToLast t ((a :: b :: bs) ++ [x])
          = a :: appendToLast t ((b :: bs) ++ [x]) := rfl
      rw [hstep, ih]
      simp

/-! ### Lemmas about `updateTokens` and `initHighlighter` -/

theorem isEmpty_false_of_ne_nil {α : Type} {l : List α} (h : l ≠ []) :
    l.isEmpty = false := by
  cases l with
  | nil => exact absurd rfl h
  | cons a b => rfl

theorem tokensToLineTokens_pos (ts : List ThemedToken) :
    1 ≤ (tokensToLineTokens ts).length := by
  rw [tokensToLineTokens_len]
  omega

/-- On a live tokenizer, every update records `nextText` as `previousText`,
in all branches (no-op republish, successful enqueue, failed enqueue). -/
theorem updateTokens_previousText (enqueue : Tokenizer → Str → Except Err Tokenizer)
    (cr : Option ColorMap) (st : HighlightState) (n : Str) (fr : Bool)
    (tok : Tokenizer) (htk : st.tokenizer = some tok) :
    (updateTokens enqueue cr st n fr).previousText = n := by
  simp only [updateTokens, htk, enqueueStep]
  repeat' split
  all_goals rfl

/-- Every update on a state whose published lines are non-empty keeps the
published lines non-empty. -/
theorem updateTokens_lines_pos (enqueue : Tokenizer → Str → Except Err Tokenizer)
    (cr : Option ColorMap) (st : HighlightState) (n : Str) (fr : Bool)
    (h : 1 ≤ (linesOf st).length) :
    1 ≤ (linesOf (updateTokens enqueue cr st n fr)).length := by
  cases htk : st.tokenizer with
  | none => simpa [updateTokens, htk] using h
  | some tok =>
    simp only [updateTokens, htk, enqueueStep]
    repeat' split
    all_goals (try simpa [linesOf] using h)
    all_goals (try simp [linesOf])
    all_goals exact tokensToLineTokens_pos _

/-- Every (re)initialization of a state whose published lines are non-empty
keeps the published lines non-empty. -/
theorem initHighlighter_lines_pos (sOpt : Bool) (engine : EngineOutcome)
    (enqueue : Tokenizer → Str → Except Err Tokenizer) (cr : Option ColorMap)
    (textVal : Str) (st : HighlightState) (h : 1 ≤ (linesOf st).length) :
    1 ≤ (linesOf (initHighlighter sOpt engine enqueue cr textVal st).1).length := by
  cases sOpt with
  | false => simp [initHighlighter, linesOf]
  | true =>
    cases engine with
    | failed e => simpa [initHighlighter, linesOf] using h
    | ok newTok bg fg =>
      have key : ∀ st2 : HighlightState, st2.streaming = st.streaming →
          1 ≤ (linesOf (updateTokens enqueue cr st2 textVal true)).length := by
        intro st2 hs2
        apply updateTokens_lines_pos
        simpa [linesOf, hs2] using h
      simp only [initHighlighter, Bool.not_true, Bool.false_eq_true, if_false]
      repeat' split
      all_goals (try simp [linesOf])
      · rename_i s hs
        have hk := key (⟨some newTok, [], st.streaming, none, true⟩ : HighlightState) rfl
        simp only [linesOf, hs] at hk
        exact hk
      · rename_i hs
        simp [hs]

/-- A live tokenizer stays live across any update (every branch of
`updateTokens` stores back a tokenizer). -/
theorem updateTokens_tokenizer_isSome (enqueue : Tokenizer → Str → Except Err Tokenizer)
    (cr : Option ColorMap) (st : HighlightState) (n : Str) (fr : Bool)
    (tok : Tokenizer) (htk : st.tokenizer = some tok) :
    ((updateTokens enqueue cr st n fr).tokenizer).isSome = true := by
  simp only [updateTokens, htk, enqueueStep]
  repeat' split
  all_goals rfl

theorem getTokenStyle_passthrough (s : StyleAttributes) (m : ColorMap) :
    (getTokenStyle s (some m)).fontStyle = s.fontStyle ∧
    (getTokenStyle s (some m)).fontWeight = s.fontWeight := by
  simp only [getTokenStyle]
  repeat' split
  all_goals exact ⟨rfl, rfl⟩

theorem getTokenStyle_colors (s : StyleAttributes) (m : ColorMap) :
    (getTokenStyle s (some m)).color
      = (match s.color with
         | some c => if c.isEmpty then some c else some (applyColorReplacement c (some m))
         | none => none) ∧
    (getTokenStyle s (some m)).backgroundColor
      = (match s.backgroundColor with
         | some c => if c.isEmpty then some c else some (applyColorReplacement c (some m))
         | none => none) := by
  simp only [getTokenStyle]
  repeat' split
  all_goals constructor
  all_goals first | rfl | simp_all

/-! ### Claim theorems -/

/-- C1: append detection.  For every previous text `p` and non-empty suffix
`s`, an update with `nextText = p ++ s` and no forced reset is planned as an
append: `canAppend` is true, the computed chunk is exactly `s` (the next text
with the prefix `p` removed, not the full text), and the update reduces to
the enqueue step fed exactly `s` on the uncleared tokenizer. -/
theorem C1_append_detection (enqueue : Tokenizer → Str → Except Err Tokenizer)
    (cr : Option ColorMap) (st : HighlightState) (tok : Tokenizer) (p s : Str)
    (htk : st.tokenizer = some tok) (hprev : st.previousText = p) (hs : s ≠ []) :
    canAppendOf p (p ++ s) false = true ∧
    chunkOf p (p ++ s) false = s ∧
    updateTokens enqueue cr st (p ++ s) false
      = enqueueStep enqueue cr st tok s (p ++ s) := by
  have hca : canAppendOf p (p ++ s) false = true := by
    simp [canAppendOf]
  have hch : chunkOf p (p ++ s) false = s := by
    simp [chunkOf, hca]
  have hse : s.isEmpty = false := isEmpty_false_of_ne_nil hs
  refine ⟨hca, hch, ?_⟩
  simp [updateTokens, htk, hprev, hca, hch, hse]

/-- Witness for C1: previous text `"a"`, next text `"ab"`, so the chunk fed
to the tokenizer is `"b"`. -/
theorem C1_append_detection_witness :
    canAppendOf ['a'] (['a'] ++ ['b']) false = true ∧
    chunkOf ['a'] (['a'] ++ ['b']) false = ['b'] ∧
    updateTokens (fun tk c => Except.ok ⟨tk.tokensStable ++ [⟨c, []⟩], []⟩) none
        (⟨some ⟨[], []⟩, ['a'], none, none, false⟩ : HighlightState) (['a'] ++ ['b']) false
      = enqueueStep (fun tk c => Except.ok ⟨tk.tokensStable ++ [⟨c, []⟩], []⟩) none
        (⟨some ⟨[], []⟩, ['a'], none, none, false⟩ : HighlightState)
        ⟨[], []⟩ ['b'] (['a'] ++ ['b']) :=
  C1_append_detection (fun tk c => Except.ok ⟨tk.tokensStable ++ [⟨c, []⟩], []⟩) none
    (⟨some ⟨[], []⟩, ['a'], none, none, false⟩ : HighlightState)
    ⟨[], []⟩ ['a'] ['b'] rfl rfl (by decide)

/-- C2 counterexample: previous text `"a"`, next text `""`.  `""` does not
start with `"a"` and no reset is forced, yet the tokenizer is NOT fed the
whole next text: with an always-failing enqueue, the update leaves the error
field `none` (so `enqueue` was never called) and only clears the tokenizer,
republishing the empty merge. -/
theorem C2_counterexample :
    (['a'] : Str).isPrefixOf [] = false ∧
    (updateTokens (fun _ _ => Except.error ['E']) none
        (⟨some ⟨[⟨['x'], []⟩], []⟩, ['a'], none, none, false⟩ : HighlightState)
        [] false).error = none ∧
    (updateTokens (fun _ _ => Except.error ['E']) none
        (⟨some ⟨[⟨['x'], []⟩], []⟩, ['a'], none, none, false⟩ : HighlightState)
        [] false).tokenizer = some (⟨[], []⟩ : Tokenizer) :=
  ⟨rfl, rfl, rfl⟩

/-- C2 (amended): reset on non-prefix, for non-empty next text.  When
`nextText` does not start with `previousText` (and `forceReset` is false) and
`nextText` is non-empty, the update is planned as a reset: `canAppend` is
false, the chunk is the whole `nextText`, and the update reduces to the
enqueue step applied to the cleared tokenizer (clear happens before enqueue)
fed the whole `nextText`.  When `nextText` is empty no enqueue call is made:
the cleared tokenizer's empty token merge is republished instead. -/
theorem C2_reset_on_nonprefix (enqueue : Tokenizer → Str → Except Err Tokenizer)
    (cr : Option ColorMap) (st : HighlightState) (tok : Tokenizer) (p n : Str)
    (htk : st.tokenizer = some tok) (hprev : st.previousText = p)
    (hpre : p.isPrefixOf n = false) (hn : n ≠ []) :
    canAppendOf p n false = false ∧
    chunkOf p n false = n ∧
    updateTokens enqueue cr st n false
      = enqueueStep enqueue cr st (clearTokenizer tok) n n := by
  have hca : canAppendOf p n false = false := by
    simp [canAppendOf, hpre]
  have hch : chunkOf p n false = n := by
    simp [chunkOf, hca]
  have hne : n.isEmpty = false := isEmpty_false_of_ne_nil hn
  refine ⟨hca, hch, ?_⟩
  simp [updateTokens, htk, hprev, hca, hch, hne]

/-- Witness for the amended C2: previous text `"a"`, next text `"b"` — the
tokenizer is cleared and then fed the whole `"b"`. -/
theorem C2_reset_on_nonprefix_witness :
    canAppendOf ['a'] ['b'] false = false ∧
    chunkOf ['a'] ['b'] false = ['b'] ∧
    updateTokens (fun tk c => Except.ok ⟨tk.tokensStable ++ [⟨c, []⟩], []⟩) none
        (⟨some ⟨[⟨['x'], []⟩], []⟩, ['a'], none, none, false⟩ : HighlightState) ['b'] false
      = enqueueStep (fun tk c => Except.ok ⟨tk.tokensStable ++ [⟨c, []⟩], []⟩) none
        (⟨some ⟨[⟨['x'], []⟩], []⟩, ['a'], none, none, false⟩ : HighlightState)
        (clearTokenizer ⟨[⟨['x'], []⟩], []⟩) ['b'] ['b'] :=
  C2_reset_on_nonprefix (fun tk c => Except.ok ⟨tk.tokensStable ++ [⟨c, []⟩], []⟩) none
    (⟨some ⟨[⟨['x'], []⟩], []⟩, ['a'], none, none, false⟩ : HighlightState)
    ⟨[⟨['x'], []⟩], []⟩ ['a'] ['b'] rfl rfl (by decide) (by decide)

/-- C3: line count invariant.  For every token list, the line splitter
returns exactly `k + 1` lines where `k` is the number of newline characters
in the concatenated token contents, regardless of how the newlines are
distributed across token boundaries. -/
theorem C3_line_count_invariant (ts : List ThemedToken) :
    (tokensToLineTokens ts).length = countNL (concatContents ts) + 1 :=
  tokensToLineTokens_len ts

/-- C4: no information loss.  Concatenating the contents of all tokens in
every line of `tokensToLineTokens ts` and joining consecutive lines with one
newline reproduces the concatenation of the original token contents; and
every emitted token carries the style of one of the input tokens. -/
theorem C4_no_information_loss (ts : List ThemedToken) :
    unsplit ((tokensToLineTokens ts).map lineText) = concatContents ts ∧
    ∀ l ∈ tokensToLineTokens ts, ∀ t2 ∈ l, ∃ t ∈ ts, t2.style = t.style :=
  ⟨tokensToLineTokens_text ts, fun _ hl _ ht => tokensToLineTokens_styles ts hl ht⟩

/-- C5 counterexample: disabling streaming while a session holds a tokenizer
and published lines yields exposed lines `[[]]` (one empty line), which is
not the empty list `[]` the claim states. -/
theorem C5_counterexample :
    linesOf (initHighlighter false (EngineOutcome.failed ['e'])
        (fun tk _ => Except.ok tk) none []
        (⟨some ⟨[⟨['x'], []⟩], []⟩, ['x'],
          some ⟨none, [[⟨['x'], []⟩]], none⟩, none, false⟩ : HighlightState)).1 = [[]] ∧
    ([[]] : List (List ThemedToken)) ≠ [] :=
  ⟨rfl, by decide⟩

/-- C5 (amended): disabled-state output.  When streaming is disabled, the
core clears and releases the tokenizer, resets `previousText` to empty, and
clears the published output, so the exposed lines value equals `[[]]` — the
single-empty-line fallback of the `lines` computed value — not `[]`. -/
theorem C5_disabled_state (engine : EngineOutcome)
    (enqueue : Tokenizer → Str → Except Err Tokenizer) (cr : Option ColorMap)
    (textVal : Str) (st : HighlightState) :
    (initHighlighter false engine enqueue cr textVal st).1.tokenizer = none ∧
    (initHighlighter false engine enqueue cr textVal st).1.previousText = [] ∧
    (initHighlighter false engine enqueue cr textVal st).1.streaming = none ∧
    linesOf (initHighlighter false engine enqueue cr textVal st).1 = [[]] ∧
    (initHighlighter false engine enqueue cr textVal st).2
      = st.tokenizer.map clearTokenizer :=
  ⟨rfl, rfl, rfl, rfl, rfl⟩

/-- C6 counterexample: a token whose content is the empty string is NOT
dropped by the splitter: it appears unchanged in the output line. -/
theorem C6_counterexample :
    tokensToLineTokens [⟨[], ['s']⟩] = [[⟨[], ['s']⟩]] ∧
    (⟨[], ['s']⟩ : ThemedToken).content = [] :=
  ⟨rfl, rfl⟩

/-- C6 (amended): a token whose content is the empty string contributes no
characters, but it is not dropped: the splitter appends it unchanged to the
current (last) line.  (Only empty segments arising from splitting a token
with embedded newlines are dropped.) -/
theorem C6_empty_token (ts : List ThemedToken) (t : ThemedToken)
    (h : t.content = []) :
    tokensToLineTokens (ts ++ [t]) = appendToLast t (tokensToLineTokens ts) := by
  have hstep : ∀ st : SplitState, stepToken st t = (st.1, st.2 ++ [t]) := by
    intro st
    unfold stepToken
    rw [h]
    simp
  cases hts : ts.isEmpty with
  | true =>
    have h0 : ts = [] := by simpa using hts
    subst h0
    rw [List.nil_append, tokensToLineTokens_eq [t] rfl]
    simp [hstep, tokensToLineTokens, appendToLast]
  | false =>
    have hts2 : (ts ++ [t]).isEmpty = false := by simp
    rw [tokensToLineTokens_eq _ hts2, tokensToLineTokens_eq ts hts, List.foldl_append]
    simp only [List.foldl_cons, List.foldl_nil]
    rw [hstep, appendToLast_snoc]

/-- Witness for the amended C6 at a concrete list and empty-content token. -/
theorem C6_empty_token_witness :
    tokensToLineTokens ([⟨['a'], []⟩] ++ [⟨[], ['s']⟩])
      = appendToLast ⟨[], ['s']⟩ (tokensToLineTokens [⟨['a'], []⟩]) :=
  C6_empty_token [⟨['a'], []⟩] ⟨[], ['s']⟩ rfl

/-- C7: tokenize-failure recovery.  On a live tokenizer, `previousText` is
set to `nextText` unconditionally; when the enqueue fails, the error field is
set, the previously published `streaming` value (hence the lines) is left
unchanged, the tokenizer is not torn down, and a subsequent update still
records its own text normally. -/
theorem C7_tokenize_failure_recovery (enqueue : Tokenizer → Str → Except Err Tokenizer)
    (enqueue2 : Tokenizer → Str → Except Err Tokenizer)
    (cr cr2 : Option ColorMap) (st : HighlightState) (tok : Tokenizer)
    (n n2 : Str) (fr fr2 : Bool) (e : Err)
    (htk : st.tokenizer = some tok)
    (hfail : ∀ tk c, enqueue tk c = Except.error e)
    (hchunk : chunkOf (if fr then [] else st.previousText) n fr ≠ []) :
    (updateTokens enqueue cr st n fr).previousText = n ∧
    (updateTokens enqueue cr st n fr).error = some e ∧
    (updateTokens enqueue cr st n fr).streaming = st.streaming ∧
    ((updateTokens enqueue cr st n fr).tokenizer).isSome = true ∧
    (updateTokens enqueue2 cr2 (updateTokens enqueue cr st n fr) n2 fr2).previousText
      = n2 := by
  have hce : (chunkOf (if fr then [] else st.previousText) n fr).isEmpty = false :=
    isEmpty_false_of_ne_nil hchunk
  have hpe : (updateTokens enqueue cr st n fr).error = some e ∧
      (updateTokens enqueue cr st n fr).streaming = st.streaming := by
    simp [updateTokens, htk, enqueueStep, hce, hfail]
  refine ⟨updateTokens_previousText enqueue cr st n fr tok htk, hpe.1, hpe.2,
    updateTokens_tokenizer_isSome enqueue cr st n fr tok htk, ?_⟩
  obtain ⟨tk2, htk2⟩ := Option.isSome_iff_exists.1
    (updateTokens_tokenizer_isSome enqueue cr st n fr tok htk)
  exact updateTokens_previousText enqueue2 cr2 _ n2 fr2 tk2 htk2

/-- Witness for C7: an always-failing enqueue on a live tokenizer with
published lines `[["x"]]`. -/
theorem C7_tokenize_failure_recovery_witness :
    (updateTokens (fun _ _ => Except.error ['E']) none
        (⟨some ⟨[], []⟩, [], some ⟨none, [[⟨['x'], []⟩]], none⟩, none, false⟩ :
          HighlightState) ['a'] false).previousText = ['a'] ∧
    (updateTokens (fun _ _ => Except.error ['E']) none
        (⟨some ⟨[], []⟩, [], some ⟨none, [[⟨['x'], []⟩]], none⟩, none, false⟩ :
          HighlightState) ['a'] false).error = some ['E'] ∧
    (updateTokens (fun _ _ => Except.error ['E']) none
        (⟨some ⟨[], []⟩, [], some ⟨none, [[⟨['x'], []⟩]], none⟩, none, false⟩ :
          HighlightState) ['a'] false).streaming
      = (⟨some ⟨[], []⟩, [], some ⟨none, [[⟨['x'], []⟩]], none⟩, none, false⟩ :
          HighlightState).streaming ∧
    ((updateTokens (fun _ _ => Except.error ['E']) none
        (⟨some ⟨[], []⟩, [], some ⟨none, [[⟨['x'], []⟩]], none⟩, none, false⟩ :
          HighlightState) ['a'] false).tokenizer).isSome = true ∧
    (updateTokens (fun _ _ => Except.ok ⟨[], []⟩) none
        (updateTokens (fun _ _ => Except.error ['E']) none
          (⟨some ⟨[], []⟩, [], some ⟨none, [[⟨['x'], []⟩]], none⟩, none, false⟩ :
            HighlightState) ['a'] false) ['b'] false).previousText = ['b'] :=
  C7_tokenize_failure_recovery (fun _ _ => Except.error ['E'])
    (fun _ _ => Except.ok ⟨[], []⟩) none none
    (⟨some ⟨[], []⟩, [], some ⟨none, [[⟨['x'], []⟩]], none⟩, none, false⟩ : HighlightState)
    ⟨[], []⟩ ['a'] ['b'] false false ['E'] rfl (fun _ _ => rfl) (by decide)

/-- C8 counterexample: re-initializing with streaming enabled (the
configuration-change path) drops the previously held tokenizer WITHOUT
calling `clear()` on it: afterwards the old tokenizer object still holds its
buffers, unlike a cleared one. -/
theorem C8_counterexample :
    (initHighlighter true (EngineOutcome.ok ⟨[], []⟩ none none)
        (fun tk _ => Except.ok tk) none []
        (⟨some ⟨[⟨['x'], []⟩], []⟩, ['x'], none, none, false⟩ : HighlightState)).2
      = some (⟨[⟨['x'], []⟩], []⟩ : Tokenizer) ∧
    clearTokenizer ⟨[⟨['x'], []⟩], []⟩ ≠ (⟨[⟨['x'], []⟩], []⟩ : Tokenizer) :=
  ⟨rfl, by decide⟩

/-- C8 (amended): configuration-change transition.  When the configuration
changes with streaming enabled and the engine yields a new tokenizer, the
previously held tokenizer is dropped without `clear()` being called on it
(its buffers are left as they were; `clear()` happens only on the disabled
path and on unmount); the new tokenizer is installed and `previousText` is
reset to the empty string as part of the transition (observable directly
when the current text is empty), forcing a full retokenization on the next
update. -/
theorem C8_config_change (st : HighlightState) (newTok : Tokenizer)
    (bg fg : Option Str) (enqueue : Tokenizer → Str → Except Err Tokenizer)
    (cr : Option ColorMap) (textVal : Str) :
    (initHighlighter true (EngineOutcome.ok newTok bg fg) enqueue cr textVal st).2
      = st.tokenizer ∧
    (initHighlighter true (EngineOutcome.ok newTok bg fg) enqueue cr [] st).1.previousText
      = [] ∧
    (initHighlighter true (EngineOutcome.ok newTok bg fg) enqueue cr [] st).1.tokenizer
      = some newTok :=
  ⟨rfl, rfl, rfl⟩

/-- C9: color replacement semantics and purity.  With no map the style passes
through unchanged; with a map only the `color` and `backgroundColor` fields
are substituted (via `applyColorReplacement`, which looks the color up by its
lowercased value, so matching is insensitive to the case of the token's
color), `fontStyle` and `fontWeight` are untouched, and two applications on
the same unmodified inputs give equal output (the embedding is a pure
function of its arguments; the original token is never modified). -/
theorem C9_color_replacement (s : StyleAttributes) (m : ColorMap) (c1 c2 : Str)
    (h : toLowerStr c1 = toLowerStr c2) :
    getTokenStyle s none = s ∧
    (getTokenStyle s (some m)).fontStyle = s.fontStyle ∧
    (getTokenStyle s (some m)).fontWeight = s.fontWeight ∧
    (getTokenStyle s (some m)).color
      = (match s.color with
         | some c => if c.isEmpty then some c else some (applyColorReplacement c (some m))
         | none => none) ∧
    (getTokenStyle s (some m)).backgroundColor
      = (match s.backgroundColor with
         | some c => if c.isEmpty then some c else some (applyColorReplacement c (some m))
         | none => none) ∧
    lookupColor m (toLowerStr c1) = lookupColor m (toLowerStr c2) ∧
    applyColorReplacement c1 none = c1 ∧
    getTokenStyle s (some m) = getTokenStyle s (some m) :=
  ⟨rfl, (getTokenStyle_passthrough s m).1, (getTokenStyle_passthrough s m).2,
   (getTokenStyle_colors s m).1, (getTokenStyle_colors s m).2, by rw [h], rfl, rfl⟩

/-- Witness for C9: a style with color `"#F"` and a map sending `"#f"` to
`"#0"`; `c1 = "#F"` and `c2 = "#f"` have the same lowercasing. -/
theorem C9_color_replacement_witness :
    getTokenStyle ⟨some ['#', 'F'], none, some ['i'], none⟩ none
      = (⟨some ['#', 'F'], none, some ['i'], none⟩ : StyleAttributes) ∧
    (getTokenStyle ⟨some ['#', 'F'], none, some ['i'], none⟩
        (some [(['#', 'f'], ['#', '0'])])).fontStyle
      = (⟨some ['#', 'F'], none, some ['i'], none⟩ : StyleAttributes).fontStyle ∧
    (getTokenStyle ⟨some ['#', 'F'], none, some ['i'], none⟩
        (some [(['#', 'f'], ['#', '0'])])).fontWeight
      = (⟨some ['#', 'F'], none, some ['i'], none⟩ : StyleAttributes).fontWeight ∧
    (getTokenStyle ⟨some ['#', 'F'], none, some ['i'], none⟩
        (some [(['#', 'f'], ['#', '0'])])).color
      = (match (⟨some ['#', 'F'], none, some ['i'], none⟩ : StyleAttributes).color with
         | some c => if c.isEmpty then some c
                     else some (applyColorReplacement c (some [(['#', 'f'], ['#', '0'])]))
         | none => none) ∧
    (getTokenStyle ⟨some ['#', 'F'], none, some ['i'], none⟩
        (some [(['#', 'f'], ['#', '0'])])).backgroundColor
      = (match (⟨some ['#', 'F'], none, some ['i'], none⟩ : StyleAttributes).backgroundColor with
         | some c => if c.isEmpty then some c
                     else some (applyColorReplacement c (some [(['#', 'f'], ['#', '0'])]))
         | none => none) ∧
    lookupColor [(['#', 'f'], ['#', '0'])] (toLowerStr ['#', 'F'])
      = lookupColor [(['#', 'f'], ['#', '0'])] (toLowerStr ['#', 'f']) ∧
    applyColorReplacement ['#', 'F'] none = ['#', 'F'] ∧
    getTokenStyle ⟨some ['#', 'F'], none, some ['i'], none⟩
        (some [(['#', 'f'], ['#', '0'])])
      = getTokenStyle ⟨some ['#', 'F'], none, some ['i'], none⟩
        (some [(['#', 'f'], ['#', '0'])]) :=
  C9_color_replacement ⟨some ['#', 'F'], none, some ['i'], none⟩
    [(['#', 'f'], ['#', '0'])] ['#', 'F'] ['#', 'f'] (by decide)

/-- C10: the exposed lines value always has at least one line: in the initial
state, after any update on a state satisfying the invariant, and after any
(re)initialization — the splitter never returns zero lines and every
publishing path falls back to `[[]]`. -/
theorem C10_lines_nonempty (enqueue : Tokenizer → Str → Except Err Tokenizer)
    (cr : Option ColorMap) (st : HighlightState) (n textVal : Str) (fr sOpt : Bool)
    (engine : EngineOutcome) (h : 1 ≤ (linesOf st).length) :
    1 ≤ (linesOf initialState).length ∧
    1 ≤ (linesOf (updateTokens enqueue cr st n fr)).length ∧
    1 ≤ (linesOf (initHighlighter sOpt engine enqueue cr textVal st).1).length :=
  ⟨by simp [linesOf, initialState], updateTokens_lines_pos enqueue cr st n fr h,
   initHighlighter_lines_pos sOpt engine enqueue cr textVal st h⟩

/-- Witness for C10 at a concrete reachable-looking state. -/
theorem C10_lines_nonempty_witness :
    1 ≤ (linesOf initialState).length ∧
    1 ≤ (linesOf (updateTokens (fun tk _ => Except.ok tk) none
        (⟨some ⟨[], []⟩, [], some ⟨none, [[⟨['x'], []⟩]], none⟩, none, false⟩ :
          HighlightState) ['a'] false)).length ∧
    1 ≤ (linesOf (initHighlighter true (EngineOutcome.ok ⟨[], []⟩ none none)
        (fun tk _ => Except.ok tk) none []
        (⟨some ⟨[], []⟩, [], some ⟨none, [[⟨['x'], []⟩]], none⟩, none, false⟩ :
          HighlightState)).1).length :=
  C10_lines_nonempty (fun tk _ => Except.ok tk) none
    (⟨some ⟨[], []⟩, [], some ⟨none, [[⟨['x'], []⟩]], none⟩, none, false⟩ : HighlightState)
    ['a'] [] false true (EngineOutcome.ok ⟨[], []⟩ none none) (by decide)

end XMarkdown
